import Mathlib

/-!
Verification of the bulk data-ingestion (ETL) pipeline of Materials-Simulato-R,
a shallow embedding of `crates/database/src/etl_pipeline.rs`.

Modelling conventions:
* Rust `String` is modelled as `List Char` (`Str`); `char::to_lowercase` /
  `char::is_alphabetic` are modelled by `Char.toLower` / `Char.isAlpha`
  (ASCII fragment of the Unicode behaviour, sufficient for every input that
  appears in the development).
* `f64` quantities that the pipeline only computes and stores
  (`elapsed_seconds`, `progress_percent`) are modelled as `Rat`.
* `HashMap<String, Uuid>` (the dedup cache) is an association list with
  replace-on-insert semantics; `Uuid` values are modelled as `Nat`, handed
  out by the storage oracle.
* The async machinery (tokio tasks, semaphore permits) is sequentialized for
  the batch loop: within one batch the spawned tasks are folded in input
  order.  Properties proved over this fold transfer to the concurrent code
  only when they are schedule-invariant; the interleaving of the dedup
  cache's read-lock check and write-lock insert, which the
  sequentialization hides, is modelled separately and explicitly by the
  two-task machine `raceRun` below, and statements that hold only under the
  serialized schedule (as realized by `max_workers = 1`) say so
  explicitly.
* `db.create_material` is an oracle `Storage := Material → Except Str Nat`;
  task panics (tokio `JoinError`) are not modelled, so the `Err(_)` arm of
  the tally in `ingest` corresponds exactly to `process_record` errors.
-/

namespace ETL

/-- Rust `String`, modelled as its list of characters. -/
abbrev Str := List Char

instance {ε α : Type _} [DecidableEq ε] [DecidableEq α] :
    DecidableEq (Except ε α) := fun x y =>
  match x, y with
  | Except.error e1, Except.error e2 =>
    if h : e1 = e2 then Decidable.isTrue (by simp [h])
    else Decidable.isFalse (by simp [h])
  | Except.error _, Except.ok _ => Decidable.isFalse (by simp)
  | Except.ok _, Except.error _ => Decidable.isFalse (by simp)
  | Except.ok a1, Except.ok a2 =>
    if h : a1 = a2 then Decidable.isTrue (by simp [h])
    else Decidable.isFalse (by simp [h])

/-- Mirrors `enum DataSource` of `etl_pipeline.rs`. -/
inductive DataSource where
  | MaterialsProject
  | ICSD
  | PubChem
  | ChemSpider
  | OQMD
  | AFLOW
  | CrystallographyOpenDatabase
  | Custom (name : Str)
deriving DecidableEq

/-- Minimal model of `serde_json::Value`; the pipeline moves these values
around but never inspects them (numbers are approximated by rationals). -/
inductive JsonValue where
  | null
  | bool (b : Bool)
  | num (q : Rat)
  | str (s : Str)
  | arr (elems : List JsonValue)
  | obj (fields : List (Str × JsonValue))

/-- Mirrors `struct RawMaterialData`.  The Rust field `structure` is named
`struct?` here because `structure` is a Lean keyword; maps become
association lists. -/
structure RawMaterialData where
  source : DataSource
  source_id : Str
  formula : Str
  struct? : Option JsonValue
  properties : List (Str × JsonValue)
  metadata : List (Str × Str)

/-- Mirrors `struct IngestionResult`. -/
structure IngestionResult where
  total_records : Nat
  successful : Nat
  failed : Nat
  duplicates : Nat
  validation_errors : Nat
  elapsed_seconds : Rat
deriving DecidableEq

/-- Mirrors `struct IngestionProgress` (one write to the per-source progress
entry). -/
structure IngestionProgress where
  source : DataSource
  processed : Nat
  total : Option Nat
  current_batch : Nat
  errors : Nat
  progress_percent : Rat
deriving DecidableEq

/-- The part of `materials_core::Metadata` that `transform_to_material`
writes. -/
structure Metadata where
  source : Str
  source_id : Option Str
  method : Option Str
  references : List Str
  tags : List Str
  extra : List (Str × JsonValue)

/-- The part of `materials_core::Material` that the pipeline constructs and
that a storage oracle can observe.  The random `id : Uuid` and the wall-clock
`created_at` / `updated_at` stamps of `Material::new` are nondeterministic
and never read by the pipeline, and `structure` / `properties` are left at
`Default` by `transform_to_material`; they are omitted. -/
structure Material where
  formula : Str
  metadata : Metadata

/-- The dedup cache `HashMap<String, Uuid>`: fingerprint to assigned id. -/
abbrev Cache := List (Str × Nat)

/-- `HashMap::contains_key`. -/
def containsKey (c : Cache) (k : Str) : Bool :=
  c.any fun kv => decide (kv.1 = k)

/-- `HashMap::insert`.  Shadowing by consing is observationally equal to
replace-on-collision for every lookup/contains observation on an
association list (the newest binding is found first), and the pipeline
observes the cache only through `contains_key`. -/
def insertKey (c : Cache) (k : Str) (v : Nat) : Cache :=
  (k, v) :: c

/-- `ETLPipeline::clear_cache`. -/
def clear_cache (_ : Cache) : Cache := []

/-- Mirrors `enum ProcessResult`. -/
inductive ProcessResult where
  | Success
  | Duplicate
  | ValidationError
deriving DecidableEq

/-- Rust `str::trim`: drop whitespace from both ends. -/
def trim (s : Str) : Str :=
  ((s.dropWhile Char.isWhitespace).reverse.dropWhile Char.isWhitespace).reverse

/-- `ETLPipeline::is_valid_formula`: must contain at least one letter. -/
def is_valid_formula (formula : Str) : Bool :=
  formula.any fun c => c.isAlpha

/-- `ETLPipeline::validate_record`. -/
def validate_record (r : RawMaterialData) : Except Str Unit :=
  if (trim r.formula).isEmpty then Except.error "Empty formula".data
  else if !is_valid_formula r.formula then Except.error "Invalid formula format".data
  else Except.ok ()

/-- `ETLPipeline::normalize_formula`: `formula.replace(" ", "").to_lowercase()`.
Replacing the one-character pattern `" "` by `""` is removal of the space
characters. -/
def normalize_formula (formula : Str) : Str :=
  (formula.filter fun c => decide (c ≠ ' ')).map Char.toLower

/-- Character-level `escape_debug` as used by `format!("{:?}", s)` on a
string: quote, backslash and the common control characters get a
backslash escape, every other character of the strings appearing here is
printed verbatim. -/
def escDebugChar (c : Char) : Str :=
  if c = '"' then ['\\', '"']
  else if c = '\\' then ['\\', '\\']
  else if c = '\n' then ['\\', 'n']
  else if c = '\t' then ['\\', 't']
  else if c = '\r' then ['\\', 'r']
  else [c]

/-- Debug escaping of a whole string. -/
def escDebug (s : Str) : Str := (s.map escDebugChar).flatten

/-- Derived `Debug` formatting of `DataSource`, as produced by
`format!("{:?}", record.source)`. -/
def debugFormat : DataSource → Str
  | DataSource.MaterialsProject => "MaterialsProject".data
  | DataSource.ICSD => "ICSD".data
  | DataSource.PubChem => "PubChem".data
  | DataSource.ChemSpider => "ChemSpider".data
  | DataSource.OQMD => "OQMD".data
  | DataSource.AFLOW => "AFLOW".data
  | DataSource.CrystallographyOpenDatabase => "CrystallographyOpenDatabase".data
  | DataSource.Custom s => "Custom(\"".data ++ escDebug s ++ "\")".data

/-- `ETLPipeline::generate_fingerprint`: `format!("{:?}:{}", record.source,
normalized)`. -/
def generate_fingerprint (r : RawMaterialData) : Str :=
  debugFormat r.source ++ ':' :: normalize_formula r.formula

/-- `HashMap::insert` on the `metadata.extra` map built by
`transform_to_material`. -/
def insertExtra (m : List (Str × JsonValue)) (k : Str) (v : JsonValue) :
    List (Str × JsonValue) :=
  (m.filter fun kv => decide (kv.1 ≠ k)) ++ [(k, v)]

/-- `ETLPipeline::transform_to_material`. -/
def transform_to_material (r : RawMaterialData) : Except Str Material :=
  let extra0 := r.properties.foldl
    (fun m kv => insertExtra m ("property_".data ++ kv.1) kv.2) []
  let extra1 := r.metadata.foldl
    (fun m kv => insertExtra m kv.1 (JsonValue.str kv.2)) extra0
  Except.ok
    { formula := r.formula
    , metadata :=
      { source := debugFormat r.source
      , source_id := some r.source_id
      , method := none
      , references := []
      , tags := []
      , extra := extra1 } }

/-- The Storage Port: `db.create_material(&material)` returning the new id. -/
abbrev Storage := Material → Except Str Nat

/-- Observable effect of one `process_record` task: its returned
`Result<ProcessResult>`, the dedup cache it leaves behind, and whether the
Storage Port was invoked. -/
structure RecordEffect where
  result : Except Str ProcessResult
  cache : Cache
  storageCalled : Bool

/-- `ETLPipeline::process_record`: validate, fingerprint/dedup-check,
transform, store, and only then record the fingerprint. -/
def process_record (db : Storage) (cache : Cache) (record : RawMaterialData) :
    RecordEffect :=
  match validate_record record with
  | Except.error _ => ⟨Except.ok ProcessResult.ValidationError, cache, false⟩
  | Except.ok _ =>
    let fingerprint := generate_fingerprint record
    if containsKey cache fingerprint then
      ⟨Except.ok ProcessResult.Duplicate, cache, false⟩
    else
      match transform_to_material record with
      | Except.error e => ⟨Except.error e, cache, false⟩
      | Except.ok material =>
        match db material with
        | Except.ok id =>
          ⟨Except.ok ProcessResult.Success, insertKey cache fingerprint id, true⟩
        | Except.error e =>
          ⟨Except.error ("Database error: ".data ++ e), cache, true⟩

/-- Running outcome counters of `ingest`. -/
structure Counts where
  successful : Nat
  failed : Nat
  duplicates : Nat
  validation_errors : Nat
deriving DecidableEq

/-- All counters zero. -/
def Counts.zero : Counts := ⟨0, 0, 0, 0⟩

/-- The tally arms of `ingest`'s `match handle.await`. -/
def tally (c : Counts) : Except Str ProcessResult → Counts
  | Except.ok ProcessResult.Success => { c with successful := c.successful + 1 }
  | Except.ok ProcessResult.Duplicate => { c with duplicates := c.duplicates + 1 }
  | Except.ok ProcessResult.ValidationError =>
      { c with validation_errors := c.validation_errors + 1 }
  | Except.error _ => { c with failed := c.failed + 1 }

/-- One record processed and tallied. -/
def stepRecord (db : Storage) (sc : Counts × Cache) (r : RawMaterialData) :
    Counts × Cache :=
  let e := process_record db sc.2 r
  (tally sc.1 e.result, e.cache)

/-- A batch's worth of record tasks, resolved in input order. -/
def runRecords (db : Storage) (sc : Counts × Cache)
    (rs : List RawMaterialData) : Counts × Cache :=
  rs.foldl (stepRecord db) sc

/-- `records.chunks(batch_size)`: maximal slices of size `B` (empty when the
list is empty; `chunks(0)` panics in Rust and yields `[]` here). -/
def chunksGo {α : Type _} (B : Nat) : Nat → List α → List (List α)
  | _, [] => []
  | 0, _ :: _ => []
  | fuel + 1, a :: rest =>
    (a :: rest).take B :: chunksGo B fuel ((a :: rest).drop B)

/-- `records.chunks(batch_size)` itself; the fuel `l.length` always suffices
because every step consumes at least one element. -/
def chunksOf {α : Type _} (B : Nat) (l : List α) : List (List α) :=
  if 0 < B then chunksGo B l.length l else []

/-- The progress write at the end of batch `bn` (0-based):
`processed = min((batch_num + 1) * batch_size, total)` and
`progress_percent = processed / total * 100`. -/
def batchSnapshot (source : DataSource) (total B bn : Nat) (c : Counts) :
    IngestionProgress :=
  let processed := min ((bn + 1) * B) total
  { source := source
  , processed := processed
  , total := some total
  , current_batch := bn + 1
  , errors := c.failed + c.validation_errors
  , progress_percent := ((processed : Rat) / (total : Rat)) * 100 }

/-- The batch loop of `ingest`: each chunk is drained, tallied, and followed
by one progress write. -/
def ingestBatches (db : Storage) (source : DataSource) (total B : Nat) :
    Nat → Counts × Cache → List (List RawMaterialData) →
    Counts × Cache × List IngestionProgress
  | _, sc, [] => (sc.1, sc.2, [])
  | bn, sc, chunk :: rest =>
    let sc1 := runRecords db sc chunk
    let out := ingestBatches db source total B (bn + 1) sc1 rest
    (out.1, out.2.1, batchSnapshot source total B bn sc1.1 :: out.2.2)

/-- Observable behaviour of one `ingest` call: its returned
`Result<IngestionResult>`, the dedup cache afterwards, and the sequence of
writes to the per-source progress entry (first the initialization write,
then one write per completed batch). -/
structure IngestOutput where
  result : Except Str IngestionResult
  cache : Cache
  progressWrites : List IngestionProgress

/-- The progress-entry initialization at the top of `ingest`
(`processed = 0`, `progress_percent = 0.0`, no division). -/
def initProgress (source : DataSource) (total : Nat) : IngestionProgress :=
  ⟨source, 0, some total, 0, 0, 0⟩

/-- `ETLPipeline::ingest`.  `B` is the pipeline's `batch_size` (1000 in
`ETLPipeline::new`), `elapsed` the measured `start.elapsed().as_secs_f64()`,
`cache0` the dedup cache the pipeline instance holds when the call starts. -/
def ingest (db : Storage) (B : Nat) (elapsed : Rat) (source : DataSource)
    (records : List RawMaterialData) (cache0 : Cache) : IngestOutput :=
  let total := records.length
  let out := ingestBatches db source total B 0 (Counts.zero, cache0)
    (chunksOf B records)
  { result := Except.ok
      { total_records := total
      , successful := out.1.successful
      , failed := out.1.failed
      , duplicates := out.1.duplicates
      , validation_errors := out.1.validation_errors
      , elapsed_seconds := elapsed }
  , cache := out.2.1
  , progressWrites := initProgress source total :: out.2.2 }

/-- Per-record result trace of a sequential run (the serialized schedule,
as realized e.g. by `max_workers = 1`): one `Result<ProcessResult>` per
input record, in order. -/
def outcomeTrace (db : Storage) (cache : Cache) :
    List RawMaterialData → List (Except Str ProcessResult)
  | [] => []
  | r :: rs =>
    let e := process_record db cache r
    e.result :: outcomeTrace db e.cache rs

/-- Cache left behind by a sequential run. -/
def cacheAfter (db : Storage) (cache : Cache) :
    List RawMaterialData → Cache
  | [] => cache
  | r :: rs => cacheAfter db (process_record db cache r).cache rs

/-- Recognizer for the `Ok(Ok(Success))` tally arm. -/
def isSuccessR : Except Str ProcessResult → Bool
  | Except.ok ProcessResult.Success => true
  | _ => false

/-- Recognizer for the `Ok(Ok(Duplicate))` tally arm. -/
def isDuplicateR : Except Str ProcessResult → Bool
  | Except.ok ProcessResult.Duplicate => true
  | _ => false

/-- Recognizer for the `Ok(Ok(ValidationError))` tally arm. -/
def isValidationR : Except Str ProcessResult → Bool
  | Except.ok ProcessResult.ValidationError => true
  | _ => false

/-- Recognizer for the `Ok(Err(_))` tally arm (per-record failure). -/
def isFailureR : Except Str ProcessResult → Bool
  | Except.error _ => true
  | _ => false

lemma tally_eq (c : Counts) (x : Except Str ProcessResult) :
    tally c x =
      ⟨c.successful + (if isSuccessR x then 1 else 0),
       c.failed + (if isFailureR x then 1 else 0),
       c.duplicates + (if isDuplicateR x then 1 else 0),
       c.validation_errors + (if isValidationR x then 1 else 0)⟩ := by
  rcases x with e | pr
  · simp [tally, isSuccessR, isFailureR, isDuplicateR, isValidationR]
  · cases pr <;>
      simp [tally, isSuccessR, isFailureR, isDuplicateR, isValidationR]

/-- A sequential run is fully described by its outcome trace and final
cache. -/
lemma runRecords_eq (db : Storage) (rs : List RawMaterialData) :
    ∀ (c : Counts) (ca : Cache),
    runRecords db (c, ca) rs =
      (⟨c.successful + (outcomeTrace db ca rs).countP isSuccessR,
        c.failed + (outcomeTrace db ca rs).countP isFailureR,
        c.duplicates + (outcomeTrace db ca rs).countP isDuplicateR,
        c.validation_errors + (outcomeTrace db ca rs).countP isValidationR⟩,
       cacheAfter db ca rs) := by
  induction rs with
  | nil => intro c ca; simp [runRecords, outcomeTrace, cacheAfter]
  | cons r rs ih =>
    intro c ca
    have hstep : runRecords db (c, ca) (r :: rs) =
        runRecords db (stepRecord db (c, ca) r) rs := rfl
    rw [hstep]
    show runRecords db
      (tally c (process_record db ca r).result, (process_record db ca r).cache) rs = _
    rw [ih]
    simp only [outcomeTrace, cacheAfter, List.countP_cons, tally_eq]
    refine Prod.ext ?_ rfl
    simp only [Counts.mk.injEq]
    refine ⟨by omega, by omega, by omega, by omega⟩

lemma outcomeTrace_length (db : Storage) (rs : List RawMaterialData) :
    ∀ ca : Cache, (outcomeTrace db ca rs).length = rs.length := by
  induction rs with
  | nil => intro ca; rfl
  | cons r rs ih => intro ca; simp [outcomeTrace, ih]

/-- Every trace element is recognized by exactly one of the four tally
arms. -/
lemma trace_countP_sum (tr : List (Except Str ProcessResult)) :
    tr.countP isSuccessR + tr.countP isFailureR + tr.countP isDuplicateR +
      tr.countP isValidationR = tr.length := by
  induction tr with
  | nil => rfl
  | cons x tr ih =>
    rcases x with e | pr
    · simp [List.countP_cons, isSuccessR, isFailureR, isDuplicateR,
        isValidationR]
      omega
    · cases pr <;>
        · simp [List.countP_cons, isSuccessR, isFailureR, isDuplicateR,
            isValidationR]
          omega

lemma chunksGo_flatten {α : Type _} (B : Nat) (hB : 0 < B) :
    ∀ (fuel : Nat) (l : List α), l.length ≤ fuel →
    (chunksGo B fuel l).flatten = l := by
  intro fuel
  induction fuel with
  | zero =>
    intro l hl
    cases l with
    | nil => rfl
    | cons a rest => simp at hl
  | succ fuel ih =>
    intro l hl
    cases l with
    | nil => rfl
    | cons a rest =>
      simp only [chunksGo, List.flatten_cons]
      have hd : ((a :: rest).drop B).length ≤ fuel := by
        simp only [List.length_drop, List.length_cons]
        simp only [List.length_cons] at hl
        omega
      rw [ih ((a :: rest).drop B) hd]
      exact List.take_append_drop B (a :: rest)

lemma chunksOf_flatten {α : Type _} (B : Nat) (hB : 0 < B) (l : List α) :
    (chunksOf B l).flatten = l := by
  simp only [chunksOf, if_pos hB]
  exact chunksGo_flatten B hB l.length l le_rfl

/-- The batch loop tallies exactly like the sequential run over the
concatenation of its chunks. -/
lemma ingestBatches_run (db : Storage) (source : DataSource) (total B : Nat)
    (chunks : List (List RawMaterialData)) :
    ∀ (bn : Nat) (sc : Counts × Cache),
    ((ingestBatches db source total B bn sc chunks).1,
     (ingestBatches db source total B bn sc chunks).2.1) =
      runRecords db sc chunks.flatten := by
  induction chunks with
  | nil => intro bn sc; simp [ingestBatches, runRecords]
  | cons chunk rest ih =>
    intro bn sc
    simp only [ingestBatches, List.flatten_cons]
    rw [show runRecords db sc (chunk ++ rest.flatten) =
      runRecords db (runRecords db sc chunk) rest.flatten from
      List.foldl_append _ _ _ _]
    exact ih (bn + 1) (runRecords db sc chunk)

/-- `ingest` in terms of the sequential run: it always returns `Ok`, with
the counters of the record fold and the fold's final cache. -/
lemma ingest_spec (db : Storage) (B : Nat) (hB : 0 < B) (elapsed : Rat)
    (source : DataSource) (records : List RawMaterialData) (cache0 : Cache) :
    (ingest db B elapsed source records cache0).result =
      Except.ok
        { total_records := records.length
        , successful := (runRecords db (Counts.zero, cache0) records).1.successful
        , failed := (runRecords db (Counts.zero, cache0) records).1.failed
        , duplicates := (runRecords db (Counts.zero, cache0) records).1.duplicates
        , validation_errors :=
            (runRecords db (Counts.zero, cache0) records).1.validation_errors
        , elapsed_seconds := elapsed } ∧
    (ingest db B elapsed source records cache0).cache =
      (runRecords db (Counts.zero, cache0) records).2 := by
  have h := ingestBatches_run db source records.length B (chunksOf B records) 0
    (Counts.zero, cache0)
  rw [chunksOf_flatten B hB records] at h
  have h1 := congrArg Prod.fst h
  have h2 := congrArg Prod.snd h
  simp only at h1 h2
  constructor
  · simp only [ingest, h1]
  · simp only [ingest, h2]

/-- Per-record case: validation failure leaves cache and storage alone. -/
lemma process_record_invalid (db : Storage) (cache : Cache)
    (r : RawMaterialData) (msg : Str)
    (hv : validate_record r = Except.error msg) :
    process_record db cache r =
      ⟨Except.ok ProcessResult.ValidationError, cache, false⟩ := by
  simp [process_record, hv]

/-- Per-record case: fingerprint already reserved. -/
lemma process_record_dup (db : Storage) (cache : Cache) (r : RawMaterialData)
    (hv : validate_record r = Except.ok ())
    (hc : containsKey cache (generate_fingerprint r) = true) :
    process_record db cache r =
      ⟨Except.ok ProcessResult.Duplicate, cache, false⟩ := by
  simp [process_record, hv, hc]

/-- The transformer never fails. -/
lemma transform_ok (r : RawMaterialData) :
    ∃ m, transform_to_material r = Except.ok m :=
  ⟨_, rfl⟩

/-- Per-record case: fresh fingerprint, storage acknowledges. -/
lemma process_record_success (db : Storage) (cache : Cache)
    (r : RawMaterialData) (m : Material) (i : Nat)
    (hv : validate_record r = Except.ok ())
    (hc : containsKey cache (generate_fingerprint r) = false)
    (hm : transform_to_material r = Except.ok m)
    (hdb : db m = Except.ok i) :
    process_record db cache r =
      ⟨Except.ok ProcessResult.Success,
       insertKey cache (generate_fingerprint r) i, true⟩ := by
  simp [process_record, hv, hc, hm, hdb]

/-- Per-record case: fresh fingerprint, storage fails; the cache is left
unchanged. -/
lemma process_record_storage_error (db : Storage) (cache : Cache)
    (r : RawMaterialData) (m : Material) (err : Str)
    (hv : validate_record r = Except.ok ())
    (hc : containsKey cache (generate_fingerprint r) = false)
    (hm : transform_to_material r = Except.ok m)
    (hdb : db m = Except.error err) :
    process_record db cache r =
      ⟨Except.error ("Database error: ".data ++ err), cache, true⟩ := by
  simp [process_record, hv, hc, hm, hdb]

/-! Test fixtures: concrete records, storage oracles, and the fully
evaluated `Material` produced for `recFe`. -/

/-- A raw record carrying only a source and a key. -/
def keyRecord (source : DataSource) (sid : Str) (key : Str) :
    RawMaterialData :=
  ⟨source, sid, key, none, [], []⟩

def recFe : RawMaterialData :=
  keyRecord DataSource.MaterialsProject "mp-1".data "Fe2O3".data

def recFeSpaced : RawMaterialData :=
  keyRecord DataSource.MaterialsProject "mp-2".data " fe2o3 ".data

def recFeCaps : RawMaterialData :=
  keyRecord DataSource.MaterialsProject "mp-3".data "FE2O3".data

def recAl : RawMaterialData :=
  keyRecord DataSource.MaterialsProject "mp-4".data "Al2O3".data

/-- A record whose formula has no alphabetic character (fails validation). -/
def recNumeric : RawMaterialData :=
  keyRecord DataSource.MaterialsProject "mp-5".data "123".data

/-- The spec's storage-failure scenario record (`source_id == "X"`). -/
def recX : RawMaterialData :=
  keyRecord DataSource.MaterialsProject "X".data "NaCl".data

def recFeICSD : RawMaterialData :=
  keyRecord DataSource.ICSD "icsd-1".data "Fe2O3".data

/-- Storage oracle that always acknowledges with id 0. -/
def dbAlwaysOk : Storage := fun _ => Except.ok 0

/-- Storage oracle that always fails. -/
def dbAlwaysFail : Storage := fun _ => Except.error "connection refused".data

/-- Storage oracle that deterministically fails exactly for
`source_id == "X"` (the spec's §8 mock). -/
def dbFailOnX : Storage := fun m =>
  if m.metadata.source_id = some "X".data then Except.error "X fails".data
  else Except.ok 7

/-- The material `transform_to_material` produces for `recFe`. -/
def matFe : Material :=
  { formula := "Fe2O3".data
  , metadata :=
    { source := "MaterialsProject".data
    , source_id := some "mp-1".data
    , method := none
    , references := []
    , tags := []
    , extra := [] } }

/-- C1: for every source and input list of N records, `ingest` returns an
`IngestionResult` with `total_records == N` and
`successful + failed + duplicates + validation_errors == N`: every record
lands in exactly one outcome bucket. -/
theorem C1_bucket_partition (db : Storage) (B : Nat) (hB : 0 < B)
    (elapsed : Rat) (source : DataSource) (records : List RawMaterialData)
    (cache0 : Cache) :
    ∃ r : IngestionResult,
      (ingest db B elapsed source records cache0).result = Except.ok r ∧
      r.total_records = records.length ∧
      r.successful + r.failed + r.duplicates + r.validation_errors =
        records.length := by
  obtain ⟨h1, _⟩ := ingest_spec db B hB elapsed source records cache0
  refine ⟨_, h1, rfl, ?_⟩
  rw [runRecords_eq db records Counts.zero cache0]
  simp only [Counts.zero]
  have hsum := trace_countP_sum (outcomeTrace db cache0 records)
  have hlen := outcomeTrace_length db records cache0
  omega

/-- Witness for C1 at a concrete input. -/
theorem C1_bucket_partition_witness :
    0 < 1000 ∧
    ∃ r : IngestionResult,
      (ingest dbAlwaysOk 1000 0 DataSource.MaterialsProject
        [recFe, recFe, recAl] []).result = Except.ok r ∧
      r.total_records = 3 ∧
      r.successful + r.failed + r.duplicates + r.validation_errors = 3 :=
  ⟨by decide, C1_bucket_partition dbAlwaysOk 1000 (by decide) 0
    DataSource.MaterialsProject [recFe, recFe, recAl] []⟩

/-- C6: `ingest` always returns `Ok` with a result; per-record storage
failures are tallied in `failed` (one trace entry per record, no abort of
siblings, later batches, or the call itself). -/
theorem C6_no_abort_on_storage_failure (db : Storage) (B : Nat) (hB : 0 < B)
    (elapsed : Rat) (source : DataSource) (records : List RawMaterialData)
    (cache0 : Cache) :
    ∃ r : IngestionResult,
      (ingest db B elapsed source records cache0).result = Except.ok r ∧
      (outcomeTrace db cache0 records).length = records.length ∧
      r.failed = (outcomeTrace db cache0 records).countP isFailureR ∧
      r.successful + r.failed + r.duplicates + r.validation_errors =
        records.length := by
  obtain ⟨h1, _⟩ := ingest_spec db B hB elapsed source records cache0
  refine ⟨_, h1, outcomeTrace_length db records cache0, ?_, ?_⟩
  · rw [runRecords_eq db records Counts.zero cache0]
    simp [Counts.zero]
  · rw [runRecords_eq db records Counts.zero cache0]
    simp only [Counts.zero]
    have hsum := trace_countP_sum (outcomeTrace db cache0 records)
    have hlen := outcomeTrace_length db records cache0
    omega

/-- Witness for C6: the §8 mock storage failing exactly on
`source_id == "X"` fails that one record and buckets the rest normally. -/
theorem C6_no_abort_on_storage_failure_witness :
    0 < 1000 ∧
    ∃ r : IngestionResult,
      (ingest dbFailOnX 1000 0 DataSource.MaterialsProject
        [recFe, recX, recAl] []).result = Except.ok r ∧
      (outcomeTrace dbFailOnX [] [recFe, recX, recAl]).length = 3 ∧
      r.failed = (outcomeTrace dbFailOnX []
        [recFe, recX, recAl]).countP isFailureR ∧
      r.successful + r.failed + r.duplicates + r.validation_errors = 3 :=
  ⟨by decide, C6_no_abort_on_storage_failure dbFailOnX 1000 (by decide) 0
    DataSource.MaterialsProject [recFe, recX, recAl] []⟩

/-- C7: empty input yields an all-zero result with nonnegative elapsed time
and only the initialization progress write; the `processed/total*100`
division is computed only in batch writes (`current_batch ≥ 1`), which
exist only when the input, hence `total`, is nonzero. -/
theorem C7_empty_input (db : Storage) (B : Nat) (_hB : 0 < B) (elapsed : Rat)
    (helapsed : 0 ≤ elapsed) (source : DataSource) (cache0 : Cache) :
    (∃ r : IngestionResult,
      (ingest db B elapsed source [] cache0).result = Except.ok r ∧
      r.total_records = 0 ∧ r.successful = 0 ∧ r.failed = 0 ∧
      r.duplicates = 0 ∧ r.validation_errors = 0 ∧ 0 ≤ r.elapsed_seconds) ∧
    (ingest db B elapsed source [] cache0).progressWrites =
      [initProgress source 0] ∧
    ∀ records : List RawMaterialData,
      ∀ p ∈ (ingest db B elapsed source records cache0).progressWrites,
        1 ≤ p.current_batch → 0 < records.length := by
  refine ⟨⟨⟨0, 0, 0, 0, 0, elapsed⟩, ?_, rfl, rfl, rfl, rfl, rfl, helapsed⟩,
    ?_, ?_⟩
  · simp [ingest, chunksOf, chunksGo, ingestBatches, Counts.zero]
  · simp [ingest, chunksOf, chunksGo, ingestBatches]
  · intro records p hp hcb
    cases records with
    | nil =>
      have hw : p = initProgress source 0 := by
        simpa [ingest, chunksOf, chunksGo, ingestBatches] using hp
      rw [hw] at hcb
      simp [initProgress] at hcb
    | cons a rest => simp

/-- Witness for C7 at concrete parameters. -/
theorem C7_empty_input_witness :
    0 < 1000 ∧ (0 : Rat) ≤ 0 ∧
    ((∃ r : IngestionResult,
      (ingest dbAlwaysOk 1000 0 DataSource.PubChem [] []).result =
        Except.ok r ∧
      r.total_records = 0 ∧ r.successful = 0 ∧ r.failed = 0 ∧
      r.duplicates = 0 ∧ r.validation_errors = 0 ∧ 0 ≤ r.elapsed_seconds) ∧
    (ingest dbAlwaysOk 1000 0 DataSource.PubChem [] []).progressWrites =
      [initProgress DataSource.PubChem 0] ∧
    ∀ records : List RawMaterialData,
      ∀ p ∈ (ingest dbAlwaysOk 1000 0 DataSource.PubChem records
        []).progressWrites,
        1 ≤ p.current_batch → 0 < records.length) :=
  ⟨by decide, by decide,
    C7_empty_input dbAlwaysOk 1000 (by decide) 0 (by decide)
      DataSource.PubChem []⟩

/-- Every batch-loop progress write satisfies the `min` formula. -/
lemma ingestBatches_writes_spec (db : Storage) (source : DataSource)
    (total B : Nat) (chunks : List (List RawMaterialData)) :
    ∀ (bn : Nat) (sc : Counts × Cache),
    ∀ p ∈ (ingestBatches db source total B bn sc chunks).2.2,
      p.total = some total ∧ p.processed = min (p.current_batch * B) total := by
  induction chunks with
  | nil => intro bn sc p hp; simp [ingestBatches] at hp
  | cons chunk rest ih =>
    intro bn sc p hp
    simp only [ingestBatches, List.mem_cons] at hp
    rcases hp with hp | hp
    · subst hp
      exact ⟨rfl, rfl⟩
    · exact ih (bn + 1) (runRecords db sc chunk) p hp

/-- C9: every published progress snapshot has
`processed = min(current_batch * batch_size, total)`, hence
`processed ≤ total`. -/
theorem C9_progress_min (db : Storage) (B : Nat) (elapsed : Rat)
    (source : DataSource) (records : List RawMaterialData) (cache0 : Cache)
    (p : IngestionProgress)
    (hp : p ∈ (ingest db B elapsed source records cache0).progressWrites) :
    p.total = some records.length ∧
    p.processed = min (p.current_batch * B) records.length ∧
    p.processed ≤ records.length := by
  simp only [ingest, List.mem_cons] at hp
  rcases hp with hp | hp
  · subst hp
    exact ⟨rfl, by simp [initProgress], by simp [initProgress]⟩
  · obtain ⟨h1, h2⟩ := ingestBatches_writes_spec db source records.length B
      (chunksOf B records) 0 (Counts.zero, cache0) p hp
    exact ⟨h1, h2, h2 ▸ Nat.min_le_right _ _⟩

/-- Witness for C9 at the snapshot written after the first batch of a
concrete two-batch ingestion. -/
theorem C9_progress_min_witness :
    batchSnapshot DataSource.MaterialsProject 3 2 0 ⟨2, 0, 0, 0⟩ ∈
      (ingest dbAlwaysOk 2 0 DataSource.MaterialsProject
        [recFe, recAl, recNumeric] []).progressWrites ∧
    ((batchSnapshot DataSource.MaterialsProject 3 2 0 ⟨2, 0, 0, 0⟩).total =
       some 3 ∧
     (batchSnapshot DataSource.MaterialsProject 3 2 0 ⟨2, 0, 0, 0⟩).processed =
       min ((batchSnapshot DataSource.MaterialsProject 3 2 0
         ⟨2, 0, 0, 0⟩).current_batch * 2) 3 ∧
     (batchSnapshot DataSource.MaterialsProject 3 2 0 ⟨2, 0, 0, 0⟩).processed ≤
       3) := by
  have hp : batchSnapshot DataSource.MaterialsProject 3 2 0 ⟨2, 0, 0, 0⟩ ∈
      (ingest dbAlwaysOk 2 0 DataSource.MaterialsProject
        [recFe, recAl, recNumeric] []).progressWrites := by
    apply List.mem_cons_of_mem
    exact List.mem_cons_self _ _
  exact ⟨hp, C9_progress_min dbAlwaysOk 2 0 DataSource.MaterialsProject
    [recFe, recAl, recNumeric] [] _ hp⟩

/-- A record failing the validation rule makes `validate_record` error. -/
lemma validate_error_of (r : RawMaterialData)
    (h : trim r.formula = [] ∨ is_valid_formula r.formula = false) :
    ∃ m, validate_record r = Except.error m := by
  unfold validate_record
  rcases h with h | h
  · simp [h]
  · by_cases he : (trim r.formula).isEmpty
    · simp [he]
    · simp [he, h]

/-- C8: a record whose formula fails validation (trimmed formula empty or no
alphabetic character) is classified `ValidationError`, leaves the dedup
cache untouched, never calls the Storage Port, and bumps only the
`validation_errors` counter. -/
theorem C8_validation_frame (db : Storage) (cache : Cache) (c : Counts)
    (r : RawMaterialData)
    (h : trim r.formula = [] ∨ is_valid_formula r.formula = false) :
    process_record db cache r =
      ⟨Except.ok ProcessResult.ValidationError, cache, false⟩ ∧
    stepRecord db (c, cache) r =
      ({ c with validation_errors := c.validation_errors + 1 }, cache) := by
  obtain ⟨m, hm⟩ := validate_error_of r h
  have h1 := process_record_invalid db cache r m hm
  exact ⟨h1, by simp [stepRecord, h1, tally]⟩

/-- Witness for C8 on the alphabet-free formula `"123"`. -/
theorem C8_validation_frame_witness :
    (trim recNumeric.formula = [] ∨
      is_valid_formula recNumeric.formula = false) ∧
    process_record dbAlwaysOk [] recNumeric =
      ⟨Except.ok ProcessResult.ValidationError, [], false⟩ ∧
    stepRecord dbAlwaysOk (Counts.zero, []) recNumeric =
      ({ Counts.zero with validation_errors :=
          Counts.zero.validation_errors + 1 }, []) :=
  ⟨by decide,
    C8_validation_frame dbAlwaysOk [] Counts.zero recNumeric (by decide)⟩

/-- C10: when storage fails for a record, its fingerprint is not inserted:
the cache is unchanged on the `Failure` outcome, and a later attempt at the
same record is never classified `Duplicate`. -/
theorem C10_no_insert_on_failure (db : Storage) (cache : Cache)
    (r : RawMaterialData) (m : Material) (err : Str)
    (hv : validate_record r = Except.ok ())
    (hc : containsKey cache (generate_fingerprint r) = false)
    (hm : transform_to_material r = Except.ok m)
    (hdb : db m = Except.error err) :
    process_record db cache r =
      ⟨Except.error ("Database error: ".data ++ err), cache, true⟩ ∧
    ∀ db2 : Storage,
      (process_record db2 cache r).result ≠
        Except.ok ProcessResult.Duplicate := by
  refine ⟨process_record_storage_error db cache r m err hv hc hm hdb, ?_⟩
  intro db2
  cases h2 : db2 m with
  | ok i =>
    rw [process_record_success db2 cache r m i hv hc hm h2]
    simp
  | error e =>
    rw [process_record_storage_error db2 cache r m e hv hc hm h2]
    simp

lemma escDebugChar_ne_nil (c : Char) : escDebugChar c ≠ [] := by
  unfold escDebugChar
  split_ifs <;> simp

/-- The per-character escape codes form a prefix code: equal
concatenations force equal first characters and equal remainders. -/
lemma escDebugChar_cancel {a b : Char} {u v : Str}
    (h : escDebugChar a ++ u = escDebugChar b ++ v) : a = b ∧ u = v := by
  unfold escDebugChar at h
  split_ifs at h <;> simp_all <;>
    (obtain ⟨h1, h2⟩ := h; exact absurd h1.symm (by assumption))

lemma escDebug_inj : ∀ s t : Str, escDebug s = escDebug t → s = t := by
  intro s
  induction s with
  | nil =>
    intro t h
    cases t with
    | nil => rfl
    | cons b bs =>
      exfalso
      simp only [escDebug, List.map_nil, List.flatten_nil, List.map_cons,
        List.flatten_cons] at h
      exact escDebugChar_ne_nil b (List.append_eq_nil.mp h.symm).1
  | cons a as ih =>
    intro t h
    cases t with
    | nil =>
      exfalso
      simp only [escDebug, List.map_nil, List.flatten_nil, List.map_cons,
        List.flatten_cons] at h
      exact escDebugChar_ne_nil a (List.append_eq_nil.mp h).1
    | cons b bs =>
      simp only [escDebug, List.map_cons, List.flatten_cons] at h
      obtain ⟨hab, hrest⟩ := escDebugChar_cancel h
      rw [hab, ih bs hrest]

lemma custom_debug_has_paren (s : Str) :
    '(' ∈ debugFormat (DataSource.Custom s) := by
  simp only [debugFormat, List.mem_append]
  exact Or.inl (Or.inl (by decide))

lemma debugFormat_custom_inj (s t : Str)
    (h : debugFormat (DataSource.Custom s) =
      debugFormat (DataSource.Custom t)) : s = t := by
  simp only [debugFormat] at h
  rw [List.append_assoc, List.append_assoc] at h
  exact escDebug_inj s t (List.append_cancel_right (List.append_cancel_left h))

/-- `format!("{:?}", source)` distinguishes every pair of distinct
`DataSource` values. -/
lemma debugFormat_inj (s t : DataSource) (h : debugFormat s = debugFormat t) :
    s = t := by
  cases s <;> cases t <;>
    first
      | rfl
      | exact absurd h (by decide)
      | exact absurd (h ▸ custom_debug_has_paren _) (by decide)
      | exact absurd (h.symm ▸ custom_debug_has_paren _) (by decide)
      | exact congrArg DataSource.Custom (debugFormat_custom_inj _ _ h)

/-- C5: the same key under two distinct sources always gets two distinct
fingerprints, so records never deduplicate across sources. -/
theorem C5_cross_source_fingerprints (r1 r2 : RawMaterialData)
    (hf : r1.formula = r2.formula) (hs : r1.source ≠ r2.source) :
    generate_fingerprint r1 ≠ generate_fingerprint r2 := by
  intro h
  unfold generate_fingerprint at h
  rw [hf] at h
  exact hs (debugFormat_inj _ _ (List.append_cancel_right h))

/-- Witness for C5: the key `"Fe2O3"` under Materials Project and ICSD. -/
theorem C5_cross_source_fingerprints_witness :
    recFe.formula = recFeICSD.formula ∧ recFe.source ≠ recFeICSD.source ∧
    generate_fingerprint recFe ≠ generate_fingerprint recFeICSD :=
  ⟨rfl, by decide, C5_cross_source_fingerprints recFe recFeICSD rfl (by decide)⟩

/-- The claim's wording of normalization, for comparison with the code's
`normalize_formula`: lower-casing of the key with all whitespace removed. -/
def normalizeSpec (key : Str) : Str :=
  (key.filter fun c => !c.isWhitespace).map Char.toLower

/-- C4 counterexample: `normalize_formula` removes only the space character
`' '`, not all whitespace; on the key `"Fe\t2O3"` (a tab inside) it differs
from the spec's lower-case-and-strip-all-whitespace function. -/
theorem C4_normalize_counterexample :
    normalize_formula "Fe\t2O3".data ≠ normalizeSpec "Fe\t2O3".data := by
  decide

lemma containsKey_insertKey (c : Cache) (k f : Str) (v : Nat) :
    containsKey (insertKey c k v) f = (decide (k = f) || containsKey c f) :=
  rfl

/-- Program counter of one in-flight `process_record` task for a valid,
storage-succeeding record, split at the code's atomic regions: the
read-locked `contains_key` check (lines 204-209), the awaited
`db.create_material` call (line 215), and the write-locked `insert`
(lines 218-219).  Between two regions the `RwLock` is released and other
tasks may run. -/
inductive TaskPC where
  | atCheck
  | atStore
  | atInsert (id : Nat)
  | doneSuccess
  | doneDuplicate
deriving DecidableEq

/-- Shared dedup cache plus the two tasks' program counters. -/
structure RaceState where
  cache : Cache
  t0 : TaskPC
  t1 : TaskPC
deriving DecidableEq

/-- One atomic region of one task processing fingerprint `fp`. -/
def taskStep (fp : Str) (id : Nat) (cache : Cache) : TaskPC → TaskPC × Cache
  | TaskPC.atCheck =>
    if containsKey cache fp then (TaskPC.doneDuplicate, cache)
    else (TaskPC.atStore, cache)
  | TaskPC.atStore => (TaskPC.atInsert id, cache)
  | TaskPC.atInsert i => (TaskPC.doneSuccess, insertKey cache fp i)
  | pc => (pc, cache)

/-- Interleaving step: `false` advances task 0, `true` advances task 1. -/
def raceStep (fp : Str) (s : RaceState) (which : Bool) : RaceState :=
  if which then
    let r := taskStep fp 1 s.cache s.t1
    { s with t1 := r.1, cache := r.2 }
  else
    let r := taskStep fp 0 s.cache s.t0
    { s with t0 := r.1, cache := r.2 }

/-- Run a schedule of interleaved atomic regions. -/
def raceRun (fp : Str) (s : RaceState) (sched : List Bool) : RaceState :=
  sched.foldl (raceStep fp) s

/-- C4 (amended): normalization lower-cases and strips the space character
only (so it agrees with the spec's all-whitespace stripping exactly on keys
whose only whitespace is spaces); the keys `"Fe2O3"`, `" fe2o3 "`,
`"FE2O3"` from the same source produce identical fingerprints.  Because the
three records share one fingerprint, the "exactly one `Success`, rest
`Duplicate`" outcome is guaranteed only when their tasks are serialized
(e.g. `max_workers = 1`, where the semaphore admits one task at a time):
the serialized trace is `[Success, Duplicate, Duplicate]`, while under the
non-atomic concurrent dedup check an interleaving exists in which two tasks
for this shared fingerprint both report `Success`. -/
theorem C4_normalize_amended :
    (∀ key : Str, (∀ c ∈ key, c.isWhitespace = true → c = ' ') →
      normalize_formula key = normalizeSpec key) ∧
    (∀ (source : DataSource) (sid1 sid2 sid3 : Str),
      generate_fingerprint (keyRecord source sid1 "Fe2O3".data) =
        generate_fingerprint (keyRecord source sid2 " fe2o3 ".data) ∧
      generate_fingerprint (keyRecord source sid1 "Fe2O3".data) =
        generate_fingerprint (keyRecord source sid3 "FE2O3".data)) ∧
    (∀ (db : Storage) (source : DataSource),
      (∀ m, ∃ i, db m = Except.ok i) →
      outcomeTrace db []
        [keyRecord source "mp-1".data "Fe2O3".data,
         keyRecord source "mp-2".data " fe2o3 ".data,
         keyRecord source "mp-3".data "FE2O3".data] =
        [Except.ok ProcessResult.Success, Except.ok ProcessResult.Duplicate,
         Except.ok ProcessResult.Duplicate]) ∧
    (∀ (source : DataSource) (sid : Str),
      (raceRun (generate_fingerprint (keyRecord source sid "Fe2O3".data))
        ⟨[], TaskPC.atCheck, TaskPC.atCheck⟩
        [false, true, false, true, false, true]).t0 = TaskPC.doneSuccess ∧
      (raceRun (generate_fingerprint (keyRecord source sid "Fe2O3".data))
        ⟨[], TaskPC.atCheck, TaskPC.atCheck⟩
        [false, true, false, true, false, true]).t1 = TaskPC.doneSuccess) := by
  have hn2 : normalize_formula " fe2o3 ".data = normalize_formula "Fe2O3".data :=
    by decide
  have hn3 : normalize_formula "FE2O3".data = normalize_formula "Fe2O3".data :=
    by decide
  refine ⟨?_, ?_, ?_, fun source sid => ⟨rfl, rfl⟩⟩
  · intro key hkey
    unfold normalize_formula normalizeSpec
    congr 1
    refine List.filter_congr ?_
    intro c hc
    by_cases hw : c.isWhitespace = true
    · have hcs := hkey c hc hw
      subst hcs
      decide
    · have hcs : ¬ c = ' ' := fun e => hw (by rw [e]; decide)
      simp [hcs, hw]
  · intro source sid1 sid2 sid3
    constructor
    · show debugFormat source ++ ':' :: normalize_formula "Fe2O3".data =
        debugFormat source ++ ':' :: normalize_formula " fe2o3 ".data
      rw [hn2]
    · show debugFormat source ++ ':' :: normalize_formula "Fe2O3".data =
        debugFormat source ++ ':' :: normalize_formula "FE2O3".data
      rw [hn3]
  · intro db source hdb
    obtain ⟨m1, hm1⟩ :=
      transform_ok (keyRecord source "mp-1".data "Fe2O3".data)
    obtain ⟨i1, hi1⟩ := hdb m1
    have hs1 := process_record_success db []
      (keyRecord source "mp-1".data "Fe2O3".data) m1 i1 rfl rfl hm1 hi1
    have hfp2 : generate_fingerprint (keyRecord source "mp-2".data " fe2o3 ".data) =
        generate_fingerprint (keyRecord source "mp-1".data "Fe2O3".data) := by
      show debugFormat source ++ ':' :: normalize_formula " fe2o3 ".data =
        debugFormat source ++ ':' :: normalize_formula "Fe2O3".data
      rw [hn2]
    have hfp3 : generate_fingerprint (keyRecord source "mp-3".data "FE2O3".data) =
        generate_fingerprint (keyRecord source "mp-1".data "Fe2O3".data) := by
      show debugFormat source ++ ':' :: normalize_formula "FE2O3".data =
        debugFormat source ++ ':' :: normalize_formula "Fe2O3".data
      rw [hn3]
    have hs2 := process_record_dup db
      (insertKey [] (generate_fingerprint
        (keyRecord source "mp-1".data "Fe2O3".data)) i1)
      (keyRecord source "mp-2".data " fe2o3 ".data) rfl
      (by rw [hfp2, containsKey_insertKey]; simp)
    have hs3 := process_record_dup db
      (insertKey [] (generate_fingerprint
        (keyRecord source "mp-1".data "Fe2O3".data)) i1)
      (keyRecord source "mp-3".data "FE2O3".data) rfl
      (by rw [hfp3, containsKey_insertKey]; simp)
    simp [outcomeTrace, hs1, hs2, hs3]

/-- Boolean form of `validate_record` succeeding. -/
def validB (r : RawMaterialData) : Bool :=
  match validate_record r with
  | Except.ok _ => true
  | Except.error _ => false

/-- Fingerprints of the records that pass validation, in order. -/
def validFps (rs : List RawMaterialData) : List Str :=
  (rs.filter validB).map generate_fingerprint

lemma validate_of_validB (r : RawMaterialData) (h : validB r = true) :
    validate_record r = Except.ok () := by
  unfold validB at h
  cases hv : validate_record r with
  | ok u => cases u; rfl
  | error e => rw [hv] at h; simp at h

lemma validB_false (r : RawMaterialData) (h : validB r = false) :
    ∃ m, validate_record r = Except.error m := by
  unfold validB at h
  cases hv : validate_record r with
  | ok u => rw [hv] at h; simp at h
  | error e => exact ⟨e, rfl⟩

/-- First pass over records with pairwise-distinct valid fingerprints, none
of which is in the starting cache, storage always acknowledging: every
valid record is a fresh `Success`, every invalid record a
`ValidationError`, no duplicates and no failures; afterwards the cache
holds exactly the old keys plus the valid fingerprints. -/
lemma run_fresh (db : Storage) (hdb : ∀ m, ∃ i, db m = Except.ok i) :
    ∀ (rs : List RawMaterialData) (c : Counts) (ca : Cache),
    (validFps rs).Nodup →
    (∀ f ∈ validFps rs, containsKey ca f = false) →
    (runRecords db (c, ca) rs).1 =
      ⟨c.successful + (rs.filter validB).length, c.failed, c.duplicates,
       c.validation_errors + (rs.filter (fun r => !validB r)).length⟩ ∧
    ∀ f : Str, containsKey (runRecords db (c, ca) rs).2 f =
      (containsKey ca f || decide (f ∈ validFps rs)) := by
  intro rs
  induction rs with
  | nil =>
    intro c ca hnd hca
    refine ⟨by simp [runRecords], ?_⟩
    intro f
    simp [runRecords, validFps]
  | cons r rs ih =>
    intro c ca hnd hca
    cases hvr : validB r with
    | false =>
      obtain ⟨m, hm⟩ := validB_false r hvr
      have he := process_record_invalid db ca r m hm
      have hstep : stepRecord db (c, ca) r =
          ({ c with validation_errors := c.validation_errors + 1 }, ca) := by
        simp [stepRecord, he, tally]
      have hfps : validFps (r :: rs) = validFps rs := by
        simp [validFps, List.filter_cons, hvr]
      rw [hfps] at hnd hca
      obtain ⟨ih1, ih2⟩ := ih _ ca hnd hca
      constructor
      · show (runRecords db (stepRecord db (c, ca) r) rs).1 = _
        rw [hstep, ih1]
        simp only [List.filter_cons, hvr, Bool.false_eq_true, if_false,
          Bool.not_false, if_true, List.length_cons, Counts.mk.injEq]
        exact ⟨by trivial, by trivial, by trivial, by omega⟩
      · intro f
        show containsKey (runRecords db (stepRecord db (c, ca) r) rs).2 f = _
        rw [hstep, ih2 f, hfps]
    | true =>
      have hv := validate_of_validB r hvr
      have hfps : validFps (r :: rs) =
          generate_fingerprint r :: validFps rs := by
        simp [validFps, List.filter_cons, hvr]
      rw [hfps] at hnd hca
      have hnotin : generate_fingerprint r ∉ validFps rs :=
        (List.nodup_cons.mp hnd).1
      have hnd2 : (validFps rs).Nodup := (List.nodup_cons.mp hnd).2
      have hcar : containsKey ca (generate_fingerprint r) = false :=
        hca _ (List.mem_cons_self _ _)
      obtain ⟨m, hm⟩ := transform_ok r
      obtain ⟨i, hi⟩ := hdb m
      have he := process_record_success db ca r m i hv hcar hm hi
      have hstep : stepRecord db (c, ca) r =
          ({ c with successful := c.successful + 1 },
           insertKey ca (generate_fingerprint r) i) := by
        simp [stepRecord, he, tally]
      have hca2 : ∀ f ∈ validFps rs,
          containsKey (insertKey ca (generate_fingerprint r) i) f = false := by
        intro f hf
        rw [containsKey_insertKey]
        have hne : generate_fingerprint r ≠ f := fun e => hnotin (e ▸ hf)
        simp [hne, hca f (List.mem_cons_of_mem _ hf)]
      obtain ⟨ih1, ih2⟩ := ih _ _ hnd2 hca2
      constructor
      · show (runRecords db (stepRecord db (c, ca) r) rs).1 = _
        rw [hstep, ih1]
        simp only [List.filter_cons, hvr, if_true, Bool.not_true,
          Bool.false_eq_true, if_false, List.length_cons, Counts.mk.injEq]
        exact ⟨by omega, by trivial, by trivial, by trivial⟩
      · intro f
        show containsKey (runRecords db (stepRecord db (c, ca) r) rs).2 f = _
        rw [hstep, ih2 f, containsKey_insertKey, hfps]
        by_cases hfe : f = generate_fingerprint r
        · subst hfe; simp
        · have hne : generate_fingerprint r ≠ f := Ne.symm hfe
          simp [hne, hfe, List.mem_cons]

/-- Second pass: when every valid record's fingerprint is already in the
cache, every valid record is a `Duplicate`, every invalid record a
`ValidationError`, and the cache does not change. -/
lemma run_all_dup (db : Storage) :
    ∀ (rs : List RawMaterialData) (c : Counts) (ca : Cache),
    (∀ r ∈ rs, validB r = true →
      containsKey ca (generate_fingerprint r) = true) →
    runRecords db (c, ca) rs =
      (⟨c.successful, c.failed,
        c.duplicates + (rs.filter validB).length,
        c.validation_errors + (rs.filter (fun r => !validB r)).length⟩, ca) := by
  intro rs
  induction rs with
  | nil => intro c ca h; simp [runRecords]
  | cons r rs ih =>
    intro c ca h
    have htail : ∀ r2 ∈ rs, validB r2 = true →
        containsKey ca (generate_fingerprint r2) = true :=
      fun r2 h2 hv2 => h r2 (List.mem_cons_of_mem _ h2) hv2
    cases hvr : validB r with
    | false =>
      obtain ⟨m, hm⟩ := validB_false r hvr
      have he := process_record_invalid db ca r m hm
      have hstep : stepRecord db (c, ca) r =
          ({ c with validation_errors := c.validation_errors + 1 }, ca) := by
        simp [stepRecord, he, tally]
      show runRecords db (stepRecord db (c, ca) r) rs = _
      rw [hstep, ih _ ca htail]
      simp only [List.filter_cons, hvr, Bool.false_eq_true, if_false,
        Bool.not_false, if_true, List.length_cons, Prod.mk.injEq,
        Counts.mk.injEq]
      exact ⟨⟨by trivial, by trivial, by trivial, by omega⟩, by trivial⟩
    | true =>
      have hv := validate_of_validB r hvr
      have hcr := h r (List.mem_cons_self _ _) hvr
      have he := process_record_dup db ca r hv hcr
      have hstep : stepRecord db (c, ca) r =
          ({ c with duplicates := c.duplicates + 1 }, ca) := by
        simp [stepRecord, he, tally]
      show runRecords db (stepRecord db (c, ca) r) rs = _
      rw [hstep, ih _ ca htail]
      simp only [List.filter_cons, hvr, if_true, Bool.not_true,
        Bool.false_eq_true, if_false, List.length_cons, Prod.mk.injEq,
        Counts.mk.injEq]
      exact ⟨⟨by trivial, by trivial, by omega, by trivial⟩, by trivial⟩

/-- C3 counterexample: a record set that contains the same record twice
already yields `duplicates = 1 ≠ 0` on the very first call from a fresh
cache (and `duplicates = 2 ≠ 1 = successful₁` on the second call). -/
theorem C3_idempotence_counterexample :
    (ingest dbAlwaysOk 1000 0 DataSource.MaterialsProject [recFe, recFe]
      []).result = Except.ok ⟨2, 1, 0, 1, 0, 0⟩ ∧
    (ingest dbAlwaysOk 1000 0 DataSource.MaterialsProject [recFe, recFe]
      (ingest dbAlwaysOk 1000 0 DataSource.MaterialsProject [recFe, recFe]
        []).cache).result = Except.ok ⟨2, 0, 0, 2, 0, 0⟩ ∧
    (1 : Nat) ≠ 0 ∧ (2 : Nat) ≠ 1 := by decide

/-- C3 (amended): for a record set whose valid records have pairwise
distinct fingerprints, with storage always acknowledging, ingesting it
twice for the same source from a freshly-cleared cache yields
`duplicates = 0` on the first call and `duplicates = successful₁` on the
second. -/
theorem C3_idempotence_amended (db : Storage) (B : Nat) (hB : 0 < B)
    (e1 e2 : Rat) (source : DataSource) (records : List RawMaterialData)
    (hdb : ∀ m, ∃ i, db m = Except.ok i)
    (hnd : (validFps records).Nodup) :
    ∃ r1 r2 : IngestionResult,
      (ingest db B e1 source records []).result = Except.ok r1 ∧
      (ingest db B e2 source records
        (ingest db B e1 source records []).cache).result = Except.ok r2 ∧
      r1.duplicates = 0 ∧ r2.duplicates = r1.successful := by
  obtain ⟨h1res, h1cache⟩ := ingest_spec db B hB e1 source records []
  obtain ⟨hc1, hcache1⟩ := run_fresh db hdb records Counts.zero []
    hnd (fun f hf => rfl)
  obtain ⟨h2res, _⟩ := ingest_spec db B hB e2 source records
    (ingest db B e1 source records []).cache
  have hpresent : ∀ r ∈ records, validB r = true →
      containsKey (ingest db B e1 source records []).cache
        (generate_fingerprint r) = true := by
    intro r hr hv
    rw [h1cache, hcache1]
    have hmem : generate_fingerprint r ∈ validFps records :=
      List.mem_map_of_mem _ (List.mem_filter.mpr ⟨hr, hv⟩)
    simp [hmem]
  have h2run := run_all_dup db records Counts.zero
    (ingest db B e1 source records []).cache hpresent
  rw [h2run] at h2res
  refine ⟨_, _, h1res, h2res, ?_, ?_⟩
  · show (runRecords db (Counts.zero, []) records).1.duplicates = 0
    rw [hc1]
    rfl
  · show Counts.zero.duplicates + (records.filter validB).length =
      (runRecords db (Counts.zero, []) records).1.successful
    rw [hc1]
    rfl

/-- Witness for C3's amended statement: two distinct records ingested
twice. -/
theorem C3_idempotence_amended_witness :
    0 < 1000 ∧ (validFps [recFe, recAl]).Nodup ∧
    ∃ r1 r2 : IngestionResult,
      (ingest dbAlwaysOk 1000 0 DataSource.MaterialsProject [recFe, recAl]
        []).result = Except.ok r1 ∧
      (ingest dbAlwaysOk 1000 0 DataSource.MaterialsProject [recFe, recAl]
        (ingest dbAlwaysOk 1000 0 DataSource.MaterialsProject [recFe, recAl]
          []).cache).result = Except.ok r2 ∧
      r1.duplicates = 0 ∧ r2.duplicates = r1.successful :=
  ⟨by decide, by decide,
    C3_idempotence_amended dbAlwaysOk 1000 (by decide) 0 0
      DataSource.MaterialsProject [recFe, recAl] (fun _ => ⟨0, rfl⟩)
      (by decide)⟩

/-- C2 is violated by the code: the check-then-insert sequence of
`process_record` is not atomic (the read-locked `contains_key` and the
write-locked `insert` are separate critical sections with an awaited
storage call between them), so there is an interleaving of two tasks for
the same fingerprint in which both report `Success`.  Under a serialized
schedule the same machine yields one `Success` and one `Duplicate`,
confirming that only the interleaving is to blame. -/
theorem C2_dedup_check_not_atomic :
    ((raceRun (generate_fingerprint recFe)
        ⟨[], TaskPC.atCheck, TaskPC.atCheck⟩
        [false, true, false, true, false, true]).t0 = TaskPC.doneSuccess ∧
     (raceRun (generate_fingerprint recFe)
        ⟨[], TaskPC.atCheck, TaskPC.atCheck⟩
        [false, true, false, true, false, true]).t1 = TaskPC.doneSuccess) ∧
    ((raceRun (generate_fingerprint recFe)
        ⟨[], TaskPC.atCheck, TaskPC.atCheck⟩
        [false, false, false, true]).t0 = TaskPC.doneSuccess ∧
     (raceRun (generate_fingerprint recFe)
        ⟨[], TaskPC.atCheck, TaskPC.atCheck⟩
        [false, false, false, true]).t1 = TaskPC.doneDuplicate) := by
  decide

/-- Witness for C4's amended statement at concrete inputs. -/
theorem C4_normalize_amended_witness :
    normalize_formula "Fe 2O3".data = normalizeSpec "Fe 2O3".data ∧
    generate_fingerprint
        (keyRecord DataSource.MaterialsProject "a".data "Fe2O3".data) =
      generate_fingerprint
        (keyRecord DataSource.MaterialsProject "b".data " fe2o3 ".data) ∧
    outcomeTrace dbAlwaysOk []
      [keyRecord DataSource.MaterialsProject "mp-1".data "Fe2O3".data,
       keyRecord DataSource.MaterialsProject "mp-2".data " fe2o3 ".data,
       keyRecord DataSource.MaterialsProject "mp-3".data "FE2O3".data] =
      [Except.ok ProcessResult.Success, Except.ok ProcessResult.Duplicate,
       Except.ok ProcessResult.Duplicate] ∧
    (raceRun (generate_fingerprint
        (keyRecord DataSource.MaterialsProject "mp-1".data "Fe2O3".data))
      ⟨[], TaskPC.atCheck, TaskPC.atCheck⟩
      [false, true, false, true, false, true]).t0 = TaskPC.doneSuccess :=
  ⟨C4_normalize_amended.1 "Fe 2O3".data (by decide),
   (C4_normalize_amended.2.1 DataSource.MaterialsProject "a".data "b".data
     "c".data).1,
   C4_normalize_amended.2.2.1 dbAlwaysOk DataSource.MaterialsProject
     (fun _ => ⟨0, rfl⟩),
   (C4_normalize_amended.2.2.2 DataSource.MaterialsProject "mp-1".data).1⟩

/-- Witness for C10: `recFe` against an always-failing storage. -/
theorem C10_no_insert_on_failure_witness :
    process_record dbAlwaysFail [] recFe =
      ⟨Except.error ("Database error: ".data ++ "connection refused".data),
       [], true⟩ ∧
    ∀ db2 : Storage,
      (process_record db2 [] recFe).result ≠
        Except.ok ProcessResult.Duplicate :=
  C10_no_insert_on_failure dbAlwaysFail [] recFe matFe
    "connection refused".data (by decide) (by decide) rfl rfl

end ETL
